import Mathlib

/-!
Shallow embedding of the Double-brain backend (src/src/index.ts).

The persistence layer (Mongo collections accessed through `UserModel`,
`ContentModel`, `LinkModel`) is modelled as three in-memory lists held in a
`Store`.  The Mongo primitives used by the routes are modelled as:
  * `Model.findOne pred`  -> `List.find?` (first match in natural order)
  * `Model.find pred`     -> `List.filter`
  * `Model.create doc`    -> append at the end of the list
  * `Model.deleteOne pred`-> `List.eraseP` (remove the first match)
Each route handler becomes a pure function from its inputs and the store to
an `ApiResult` (the JSON body it sends, tagged with the status class) and
the store after the call.  The `random(10)` token generator lives in
`./utils`, which is not part of the sources; a call outcome is passed in as
an explicit `newHash` parameter (see `IsValidToken`).
-/

structure User where
  id : Nat
  username : String
  password : String
deriving DecidableEq, Repr

structure Content where
  id : Nat
  link : String
  ctype : String
  title : String
  userId : Nat
  tags : List String
deriving DecidableEq, Repr

structure ShareLink where
  userId : Nat
  hash : String
deriving DecidableEq, Repr

structure Store where
  users : List User
  contents : List Content
  links : List ShareLink
deriving DecidableEq, Repr

def emptyStore : Store := ⟨[], [], []⟩

/-- The JSON bodies the share and content routes send, tagged by status:
`okHash`, `okMessage`, `okShared` are 200 responses, `notFound` is a 404,
`internalError` is the 500 branch (a storage failure, never produced by the
pure model). -/
inductive ApiResult where
  | okHash (hash : String)
  | okMessage (message : String)
  | okShared (username : String) (content : List Content)
  | notFound (message : String)
  | internalError (message : String)
deriving DecidableEq, Repr

def statusOf : ApiResult → Nat
  | .okHash _ => 200
  | .okMessage _ => 200
  | .okShared _ _ => 200
  | .notFound _ => 404
  | .internalError _ => 500

def hashOf : ApiResult → String
  | .okHash h => h
  | _ => ""

def sharedContent : ApiResult → List Content
  | .okShared _ cs => cs
  | _ => []

/-- Modelled from the spec: `random(10)` (imported from `./utils`, a file not
present in the sources) produces a 10-character string whose characters are
chosen independently and uniformly from a fixed alphanumeric alphabet by a
non-cryptographic pseudo-random source, with no uniqueness check against
already-stored tokens.  A call's outcome is therefore modelled as an
arbitrary string satisfying this predicate, passed to `publish` as the
`newHash` parameter; in particular two distinct calls may yield equal
strings. -/
def IsValidToken (t : String) : Prop :=
  t.length = 10 ∧ t.toList.all (fun c => c.isAlphanum) = true

/-- The `share` truthy branch of `POST /api/v1/brain/share`
(src/src/index.ts, lines 146-158): return the existing link's hash if one
exists, otherwise persist a new link carrying `newHash` and return it. -/
def publish (userId : Nat) (newHash : String) (s : Store) : ApiResult × Store :=
  match s.links.find? (fun l => l.userId == userId) with
  | some existingLink => (.okHash existingLink.hash, s)
  | none =>
      (.okHash newHash, { s with links := s.links ++ [⟨userId, newHash⟩] })

/-- The `share` falsy branch of `POST /api/v1/brain/share`
(src/src/index.ts, lines 159-163): `LinkModel.deleteOne({userId})` then a
success message. -/
def unpublish (userId : Nat) (s : Store) : ApiResult × Store :=
  (.okMessage "Removed link",
   { s with links := s.links.eraseP (fun l => l.userId == userId) })

/-- A JSON value as it reaches `req.body.share`; `undefined` stands for an
absent field. -/
inductive JsonValue where
  | undefined
  | null
  | bool (b : Bool)
  | num (n : Int)
  | str (s : String)
deriving DecidableEq, Repr

/-- JavaScript truthiness of a `JsonValue` (`if (share)` in the handler). -/
def truthy : JsonValue → Bool
  | .undefined => false
  | .null => false
  | .bool b => b
  | .num n => n != 0
  | .str s => s != ""

/-- The whole `POST /api/v1/brain/share` handler (src/src/index.ts,
lines 142-169): dispatch on the truthiness of `req.body.share`. -/
def shareHandler (share : JsonValue) (userId : Nat) (newHash : String)
    (s : Store) : ApiResult × Store :=
  if truthy share then publish userId newHash s else unpublish userId s

/-- Route `GET /api/v1/brain/:shareLink` (src/src/index.ts, lines 171-198):
look the link up by hash, then its owner by id, then return the owner's
username together with every content row owned by them. -/
def resolveShare (shareLink : String) (s : Store) : ApiResult × Store :=
  match s.links.find? (fun l => l.hash == shareLink) with
  | none => (.notFound "Share link not found", s)
  | some link =>
      match s.users.find? (fun u => u.id == link.userId) with
      | none => (.notFound "Associated user not found", s)
      | some user =>
          (.okShared user.username
            (s.contents.filter (fun c => c.userId == link.userId)), s)

/-- Route `DELETE /api/v1/content` (src/src/index.ts, lines 124-138):
`ContentModel.deleteOne({_id: contentId, userId: req.userId})` then the
unconditional success message. -/
def deleteContent (contentId : Nat) (userId : Nat) (s : Store) :
    ApiResult × Store :=
  (.okMessage "Deleted",
   { s with contents :=
       s.contents.eraseP (fun c => c.id == contentId && c.userId == userId) })

/-- A sequential history of share operations; the hash carried by `pub` is
the outcome of that call's `random(10)`. -/
inductive ShareOp where
  | pub (userId : Nat) (newHash : String)
  | unpub (userId : Nat)
deriving DecidableEq, Repr

def applyOp (s : Store) : ShareOp → Store
  | .pub u h => (publish u h s).2
  | .unpub u => (unpublish u s).2

def runOps (s : Store) (ops : List ShareOp) : Store :=
  ops.foldl applyOp s

/-- The ShareLink rows owned by a given user. -/
def linksFor (userId : Nat) (s : Store) : List ShareLink :=
  s.links.filter (fun l => l.userId == userId)

/-- Each user owns at most one ShareLink row: the rows carry pairwise
distinct user ids. -/
def AtMostOneLinkPerUser (s : Store) : Prop :=
  s.links.Pairwise (fun l1 l2 => l1.userId ≠ l2.userId)

/-- Token values are unique across ShareLink rows of distinct users. -/
def TokensUnique (s : Store) : Prop :=
  s.links.Pairwise (fun l1 l2 => l1.userId ≠ l2.userId → l1.hash ≠ l2.hash)

/-- ShareLink rows carry pairwise distinct hashes. -/
def HashesDistinct (s : Store) : Prop :=
  s.links.Pairwise (fun l1 l2 => l1.hash ≠ l2.hash)

/-- User rows carry pairwise distinct ids (Mongo guarantees `_id`
uniqueness inside a collection). -/
def UserIdsDistinct (s : Store) : Prop :=
  s.users.Pairwise (fun u1 u2 => u1.id ≠ u2.id)

/-- Content rows carry pairwise distinct ids (Mongo guarantees `_id`
uniqueness inside a collection). -/
def ContentIdsDistinct (s : Store) : Prop :=
  s.contents.Pairwise (fun c1 c2 => c1.id ≠ c2.id)

/-- A history in which every generated token is fresh: at each `pub`, the
new hash differs from every hash already stored at that point. -/
def freshRunB : Store → List ShareOp → Bool
  | _, [] => true
  | s, ShareOp.pub u h :: ops =>
      s.links.all (fun l => l.hash != h) && freshRunB (applyOp s (ShareOp.pub u h)) ops
  | s, ShareOp.unpub u :: ops => freshRunB (applyOp s (ShareOp.unpub u)) ops

def FreshRun (s : Store) (ops : List ShareOp) : Prop :=
  freshRunB s ops = true

instance (t : String) : Decidable (IsValidToken t) :=
  instDecidableAnd

instance (s : Store) (ops : List ShareOp) : Decidable (FreshRun s ops) :=
  instDecidableEqBool (freshRunB s ops) true

instance (s : Store) : Decidable (AtMostOneLinkPerUser s) :=
  List.instDecidablePairwise s.links

instance (s : Store) : Decidable (TokensUnique s) :=
  List.instDecidablePairwise s.links

instance (s : Store) : Decidable (HashesDistinct s) :=
  List.instDecidablePairwise s.links

instance (s : Store) : Decidable (UserIdsDistinct s) :=
  List.instDecidablePairwise s.users

instance (s : Store) : Decidable (ContentIdsDistinct s) :=
  List.instDecidablePairwise s.contents

/-! ### Concrete stores used to evaluate the operations on closed inputs -/

/-- One user already holding a published link. -/
def W1store : Store := ⟨[⟨1, "alice", "pw1"⟩], [], [⟨1, "abc123defg"⟩]⟩

/-- Two users, each with content and an active link. -/
def W2store : Store :=
  ⟨[⟨1, "alice", "pw1"⟩, ⟨2, "bob", "pw2"⟩],
   [⟨10, "httpa", "article", "A", 1, []⟩,
    ⟨11, "httpb", "video", "B", 1, []⟩,
    ⟨12, "httpc", "article", "C", 2, []⟩],
   [⟨1, "tokenalice"⟩, ⟨2, "tokenbobbb"⟩]⟩

/-- A link whose owning user record is missing (orphaned link). -/
def W3store : Store := ⟨[], [], [⟨7, "orphantok1"⟩]⟩

/-- User 2 already holds the very token that user 1's publish is about to
draw from the generator. -/
def W4store : Store :=
  ⟨[⟨2, "bob", "pw2"⟩], [⟨12, "httpc", "article", "C", 2, []⟩],
   [⟨2, "aaaaaaaaaa"⟩]⟩

/-- User 1 holding a published link, no other rows. -/
def W4pub : Store := ⟨[⟨1, "alice", "pw1"⟩], [], [⟨1, "zzzzzzzzzz"⟩]⟩

/-- A single foreign link (owned by user 2). -/
def W8store : Store := ⟨[], [], [⟨2, "qqqqqqqqqq"⟩]⟩

/-- A single link owned by user 1, used as the start of a fresh run. -/
def W6store : Store := ⟨[], [], [⟨1, "aaaaaaaaaa"⟩]⟩

/-- Content rows owned by two different users. -/
def W10store : Store :=
  ⟨[⟨1, "alice", "pw1"⟩, ⟨2, "bob", "pw2"⟩],
   [⟨10, "httpa", "article", "A", 1, []⟩,
    ⟨12, "httpc", "article", "C", 2, []⟩],
   []⟩

/-! ### Generic facts about the list model of the Mongo primitives

`Pairwise (fun x y => p x = true → p y = true → False)` says at most one
element of the list satisfies `p`; the uniqueness invariants above all
reduce to it for the relevant predicate. -/

theorem find?_eq_some_of_unique {α : Type} {p : α → Bool} {xs : List α} {a : α}
    (hp : xs.Pairwise (fun x y => p x = true → p y = true → False))
    (ha : a ∈ xs) (hpa : p a = true) : xs.find? p = some a := by
  induction xs with
  | nil => cases ha
  | cons x xs ih =>
      rcases List.pairwise_cons.mp hp with ⟨hx, hxs⟩
      by_cases hpx : p x = true
      · rw [List.find?_cons_of_pos xs hpx]
        rcases List.mem_cons.mp ha with h | h
        · rw [h]
        · exact (hx a h hpx hpa).elim
      · rw [List.find?_cons_of_neg xs hpx]
        rcases List.mem_cons.mp ha with h | h
        · exact absurd (h ▸ hpa) hpx
        · exact ih hxs h

theorem find?_append_of_none {α : Type} {p : α → Bool} {l1 l2 : List α}
    (h : l1.find? p = none) : (l1 ++ l2).find? p = l2.find? p := by
  induction l1 with
  | nil => rfl
  | cons x xs ih =>
      cases hpx : p x with
      | true => rw [List.find?_cons_of_pos xs hpx] at h; cases h
      | false =>
          rw [List.find?_cons_of_neg xs (by simp [hpx])] at h
          rw [List.cons_append, List.find?_cons_of_neg _ (by simp [hpx])]
          exact ih h

theorem eraseP_eq_filter_not {α : Type} {p : α → Bool} {xs : List α}
    (hp : xs.Pairwise (fun x y => p x = true → p y = true → False)) :
    xs.eraseP p = xs.filter (fun x => !p x) := by
  induction xs with
  | nil => rfl
  | cons x xs ih =>
      rcases List.pairwise_cons.mp hp with ⟨hx, hxs⟩
      by_cases hpx : p x = true
      · rw [List.eraseP_cons_of_pos hpx, List.filter_cons_of_neg (by simp [hpx])]
        symm
        rw [List.filter_eq_self]
        intro a ha
        cases hpa : p a with
        | true => exact (hx a ha hpx hpa).elim
        | false => simp [hpa]
      · rw [List.eraseP_cons_of_neg hpx, List.filter_cons_of_pos (by simp [Bool.eq_false_iff.mpr hpx])]
        rw [ih hxs]

theorem pred_false_of_mem_eraseP {α : Type} {p : α → Bool} {xs : List α} {a : α}
    (hp : xs.Pairwise (fun x y => p x = true → p y = true → False))
    (ha : a ∈ xs.eraseP p) : p a = false := by
  rw [eraseP_eq_filter_not hp] at ha
  have h2 := (List.mem_filter.mp ha).2
  simpa using h2

theorem filter_eq_singleton_of_unique {α : Type} {p : α → Bool} {xs : List α} {a : α}
    (hp : xs.Pairwise (fun x y => p x = true → p y = true → False))
    (ha : a ∈ xs) (hpa : p a = true) : xs.filter p = [a] := by
  induction xs with
  | nil => cases ha
  | cons x xs ih =>
      rcases List.pairwise_cons.mp hp with ⟨hx, hxs⟩
      by_cases hpx : p x = true
      · rcases List.mem_cons.mp ha with h | h
        · rw [List.filter_cons_of_pos hpx, ← h]
          have hnil : xs.filter p = [] := by
            rw [List.filter_eq_nil_iff]
            intro b hb hpb
            exact hx b hb hpx hpb
          rw [hnil]
        · exact (hx a h hpx hpa).elim
      · rw [List.filter_cons_of_neg (by simp [Bool.eq_false_iff.mpr hpx])]
        rcases List.mem_cons.mp ha with h | h
        · exact absurd (h ▸ hpa) hpx
        · exact ih hxs h

/-! ### Bridges from the store invariants to at-most-one-match facts -/

theorem atMostOne_unique_pred {s : Store} (hinv : AtMostOneLinkPerUser s)
    (u : Nat) :
    s.links.Pairwise
      (fun x y => (x.userId == u) = true → (y.userId == u) = true → False) := by
  refine hinv.imp ?_
  intro a b hne hx hy
  exact hne ((beq_iff_eq.mp hx).trans (beq_iff_eq.mp hy).symm)

theorem hashes_unique_pred {s : Store} (hh : HashesDistinct s) (t : String) :
    s.links.Pairwise
      (fun x y => (x.hash == t) = true → (y.hash == t) = true → False) := by
  refine hh.imp ?_
  intro a b hne hx hy
  exact hne ((beq_iff_eq.mp hx).trans (beq_iff_eq.mp hy).symm)

theorem userIds_unique_pred {s : Store} (hu : UserIdsDistinct s) (i : Nat) :
    s.users.Pairwise
      (fun x y => (x.id == i) = true → (y.id == i) = true → False) := by
  refine hu.imp ?_
  intro a b hne hx hy
  exact hne ((beq_iff_eq.mp hx).trans (beq_iff_eq.mp hy).symm)

theorem contentKey_unique_pred {s : Store} (hc : ContentIdsDistinct s)
    (cid uid : Nat) :
    s.contents.Pairwise
      (fun x y => (x.id == cid && x.userId == uid) = true →
                  (y.id == cid && y.userId == uid) = true → False) := by
  refine hc.imp ?_
  intro a b hne hx hy
  simp only [Bool.and_eq_true] at hx hy
  exact hne ((beq_iff_eq.mp hx.1).trans (beq_iff_eq.mp hy.1).symm)

/-! ### Single-step preservation lemmas -/

theorem publish_atMostOne (u : Nat) (h : String) {s : Store}
    (hinv : AtMostOneLinkPerUser s) :
    AtMostOneLinkPerUser (publish u h s).2 := by
  cases hfind : s.links.find? (fun l => l.userId == u) with
  | some lk => simpa only [publish, hfind] using hinv
  | none =>
      simp only [publish, hfind]
      unfold AtMostOneLinkPerUser
      rw [List.pairwise_append]
      refine ⟨hinv, List.pairwise_singleton _ _, ?_⟩
      intro a ha b hb
      have hb2 : b = ⟨u, h⟩ := by simpa using hb
      have hna := List.find?_eq_none.mp hfind a ha
      subst hb2
      intro hEq
      exact hna (by simp [hEq])

theorem unpublish_atMostOne (u : Nat) {s : Store}
    (hinv : AtMostOneLinkPerUser s) :
    AtMostOneLinkPerUser (unpublish u s).2 :=
  hinv.sublist (List.eraseP_sublist s.links)

theorem runOps_atMostOne {s : Store} (ops : List ShareOp)
    (hinv : AtMostOneLinkPerUser s) :
    AtMostOneLinkPerUser (runOps s ops) := by
  induction ops generalizing s with
  | nil => exact hinv
  | cons op ops ih =>
      cases op with
      | pub u h => exact ih (publish_atMostOne u h hinv)
      | unpub u => exact ih (unpublish_atMostOne u hinv)

theorem publish_tokensUnique {s : Store} {u : Nat} {h : String}
    (htu : TokensUnique s) (hfr : ∀ l ∈ s.links, l.hash ≠ h) :
    TokensUnique (publish u h s).2 := by
  cases hfind : s.links.find? (fun l => l.userId == u) with
  | some lk => simpa only [publish, hfind] using htu
  | none =>
      simp only [publish, hfind]
      unfold TokensUnique
      rw [List.pairwise_append]
      refine ⟨htu, List.pairwise_singleton _ _, ?_⟩
      intro a ha b hb
      have hb2 : b = ⟨u, h⟩ := by simpa using hb
      subst hb2
      intro _
      exact hfr a ha

theorem unpublish_tokensUnique {s : Store} {u : Nat}
    (htu : TokensUnique s) :
    TokensUnique (unpublish u s).2 :=
  htu.sublist (List.eraseP_sublist s.links)

/-! ### Claims -/

/-- Claim C5: every operation preserves the invariant that each user has at
most one live ShareLink row, under sequential execution of Publish and
Unpublish: a single Publish, a single Unpublish, and any sequence of share
operations each map a store satisfying `AtMostOneLinkPerUser` to a store
satisfying it. -/
theorem claim5_atMostOne_preserved (s : Store) (u : Nat) (h : String)
    (ops : List ShareOp) (hinv : AtMostOneLinkPerUser s) :
    AtMostOneLinkPerUser (publish u h s).2 ∧
    AtMostOneLinkPerUser (unpublish u s).2 ∧
    AtMostOneLinkPerUser (runOps s ops) :=
  ⟨publish_atMostOne u h hinv, unpublish_atMostOne u hinv,
   runOps_atMostOne ops hinv⟩

/-- Witness for C5 at the empty store and a concrete operation history. -/
theorem claim5_witness :
    AtMostOneLinkPerUser emptyStore ∧
    (AtMostOneLinkPerUser (publish 1 "abc123defg" emptyStore).2 ∧
     AtMostOneLinkPerUser (unpublish 1 emptyStore).2 ∧
     AtMostOneLinkPerUser (runOps emptyStore
       [ShareOp.pub 1 "abc123defg", ShareOp.pub 2 "tokenbobbb",
        ShareOp.unpub 1, ShareOp.pub 1 "zzzzzzzzzz"])) :=
  ⟨by decide,
   claim5_atMostOne_preserved emptyStore 1 "abc123defg"
     [ShareOp.pub 1 "abc123defg", ShareOp.pub 2 "tokenbobbb",
      ShareOp.unpub 1, ShareOp.pub 1 "zzzzzzzzzz"] (by decide)⟩

/-- Claim C7: ResolveShare is read-only and side-effect-free: for every
token and store, the store after the call equals the store before it. -/
theorem claim7_resolveShare_readonly (t : String) (s : Store) :
    (resolveShare t s).2 = s := by
  unfold resolveShare
  split
  · rfl
  · split
    · rfl
    · rfl

/-- Claim C9: the share endpoint dispatches on the truthiness of the
request body's `share` field: every falsy value (including an absent
field, `undefined`) performs Unpublish and returns the success
confirmation, every truthy value performs Publish, and there is no third
branch. -/
theorem claim9_share_dispatch (v : JsonValue) (u : Nat) (h : String)
    (s : Store) :
    (truthy v = false → shareHandler v u h s = unpublish u s) ∧
    (truthy v = true → shareHandler v u h s = publish u h s) ∧
    truthy JsonValue.undefined = false ∧
    (shareHandler JsonValue.undefined u h s).1 = ApiResult.okMessage "Removed link" ∧
    (shareHandler v u h s = unpublish u s ∨ shareHandler v u h s = publish u h s) := by
  refine ⟨?_, ?_, rfl, rfl, ?_⟩
  · intro hf
    simp [shareHandler, hf]
  · intro ht
    simp [shareHandler, ht]
  · cases hv : truthy v
    · left
      simp [shareHandler, hv]
    · right
      simp [shareHandler, hv]

/-- Witness for C9: an absent flag unpublishes, a true flag publishes. -/
theorem claim9_witness :
    shareHandler JsonValue.undefined 1 "abc123defg" emptyStore = unpublish 1 emptyStore ∧
    shareHandler (JsonValue.bool true) 1 "abc123defg" emptyStore = publish 1 "abc123defg" emptyStore :=
  ⟨(claim9_share_dispatch JsonValue.undefined 1 "abc123defg" emptyStore).1 rfl,
   (claim9_share_dispatch (JsonValue.bool true) 1 "abc123defg" emptyStore).2.1 rfl⟩

/-- Claim C8: Unpublish always returns the success confirmation; when no
ShareLink exists for the user it leaves the store unchanged (deleting a
non-existent link is not an error); and afterwards the user owns no
ShareLink row. -/
theorem claim8_unpublish_idempotent (s : Store) (u : Nat)
    (hinv : AtMostOneLinkPerUser s) :
    (unpublish u s).1 = ApiResult.okMessage "Removed link" ∧
    ((∀ l ∈ s.links, l.userId ≠ u) →
        unpublish u s = (ApiResult.okMessage "Removed link", s)) ∧
    linksFor u (unpublish u s).2 = [] := by
  refine ⟨rfl, ?_, ?_⟩
  · intro hno
    unfold unpublish
    rw [List.eraseP_of_forall_not (by intro a ha; simp [hno a ha])]
  · unfold unpublish linksFor
    rw [List.filter_eq_nil_iff]
    intro a ha
    have hfalse := pred_false_of_mem_eraseP (atMostOne_unique_pred hinv u) ha
    simp [hfalse]

/-- Witness for C8 on a store holding only another user's link. -/
theorem claim8_witness :
    AtMostOneLinkPerUser W8store ∧
    ((unpublish 1 W8store).1 = ApiResult.okMessage "Removed link" ∧
     ((∀ l ∈ W8store.links, l.userId ≠ 1) →
         unpublish 1 W8store = (ApiResult.okMessage "Removed link", W8store)) ∧
     linksFor 1 (unpublish 1 W8store).2 = []) :=
  ⟨by decide, claim8_unpublish_idempotent W8store 1 (by decide)⟩

/-- Claim C10: content deletion filters on both the content id and the
caller's user id: it always answers with the success message "Deleted";
when no content row carries both the requested id and the caller's id the
store is unchanged; and in general exactly the rows matching both keys are
removed (at most one, by id uniqueness) while users and links are
untouched. -/
theorem claim10_delete_scoped (s : Store) (cid uid : Nat)
    (hids : ContentIdsDistinct s) :
    (deleteContent cid uid s).1 = ApiResult.okMessage "Deleted" ∧
    ((∀ c ∈ s.contents, c.id = cid → c.userId ≠ uid) →
        deleteContent cid uid s = (ApiResult.okMessage "Deleted", s)) ∧
    (deleteContent cid uid s).2.contents
      = s.contents.filter (fun c => !(c.id == cid && c.userId == uid)) ∧
    (deleteContent cid uid s).2.users = s.users ∧
    (deleteContent cid uid s).2.links = s.links := by
  refine ⟨rfl, ?_, ?_, rfl, rfl⟩
  · intro hno
    unfold deleteContent
    rw [List.eraseP_of_forall_not ?_]
    intro a ha
    simp only [Bool.and_eq_true, beq_iff_eq, not_and]
    intro h1
    exact fun h2 => hno a ha h1 h2
  · unfold deleteContent
    exact eraseP_eq_filter_not (contentKey_unique_pred hids cid uid)

/-- Witness for C10: deleting content id 12 (owned by user 2) as user 1
leaves the store unchanged yet still reports "Deleted". -/
theorem claim10_witness :
    ContentIdsDistinct W10store ∧
    ((deleteContent 12 1 W10store).1 = ApiResult.okMessage "Deleted" ∧
     ((∀ c ∈ W10store.contents, c.id = 12 → c.userId ≠ 1) →
         deleteContent 12 1 W10store = (ApiResult.okMessage "Deleted", W10store)) ∧
     (deleteContent 12 1 W10store).2.contents
       = W10store.contents.filter (fun c => !(c.id == 12 && c.userId == 1)) ∧
     (deleteContent 12 1 W10store).2.users = W10store.users ∧
     (deleteContent 12 1 W10store).2.links = W10store.links) :=
  ⟨by decide, claim10_delete_scoped W10store 12 1 (by decide)⟩

/-- Claim C3: ResolveShare fails with the not-found outcome (status class
404) both when the token matches no ShareLink row ("Share link not found")
and when the link's owning user record is missing ("Associated user not
found", a distinct message in the same status class); it never produces
the internal-error outcome (status 500), so an unknown token is NotFound,
not StorageFailure. -/
theorem claim3_resolve_notFound (s : Store) (t : String) (lk : ShareLink) :
    (s.links.find? (fun l => l.hash == t) = none →
       resolveShare t s = (ApiResult.notFound "Share link not found", s) ∧
       statusOf (resolveShare t s).1 = 404) ∧
    (s.links.find? (fun l => l.hash == t) = some lk →
     s.users.find? (fun u => u.id == lk.userId) = none →
       resolveShare t s = (ApiResult.notFound "Associated user not found", s) ∧
       statusOf (resolveShare t s).1 = 404) ∧
    "Share link not found" ≠ "Associated user not found" ∧
    statusOf (resolveShare t s).1 ≠ 500 := by
  refine ⟨?_, ?_, by decide, ?_⟩
  · intro hnone
    constructor
    · simp [resolveShare, hnone]
    · simp [resolveShare, hnone, statusOf]
  · intro hsome hnouser
    constructor
    · simp [resolveShare, hsome, hnouser]
    · simp [resolveShare, hsome, hnouser, statusOf]
  · unfold resolveShare
    split
    · simp [statusOf]
    · split
      · simp [statusOf]
      · simp [statusOf]

/-- Witness for C3: an unknown token and an orphaned link both yield the
404 class on a concrete store. -/
theorem claim3_witness :
    (resolveShare "does-not-exist" W3store
       = (ApiResult.notFound "Share link not found", W3store) ∧
     statusOf (resolveShare "does-not-exist" W3store).1 = 404) ∧
    (resolveShare "orphantok1" W3store
       = (ApiResult.notFound "Associated user not found", W3store) ∧
     statusOf (resolveShare "orphantok1" W3store).1 = 404) :=
  ⟨(claim3_resolve_notFound W3store "does-not-exist" ⟨7, "orphantok1"⟩).1 (by decide),
   (claim3_resolve_notFound W3store "orphantok1" ⟨7, "orphantok1"⟩).2.1
     (by decide) (by decide)⟩

/-- Claim C1: Publish is idempotent: when a ShareLink row for the user
already exists, Publish returns that row's token with the store unchanged
(nothing is created or rotated); calling Publish twice in sequence returns
the same token both times; and exactly one ShareLink row for the user
exists afterwards. -/
theorem claim1_publish_idempotent (s : Store) (u : Nat) (lk : ShareLink)
    (h1 h2 : String) (hinv : AtMostOneLinkPerUser s) :
    (lk ∈ s.links → lk.userId = u →
        publish u h1 s = (ApiResult.okHash lk.hash, s)) ∧
    (publish u h1 s).1 = (publish u h2 (publish u h1 s).2).1 ∧
    (linksFor u (publish u h2 (publish u h1 s).2).2).length = 1 := by
  refine ⟨?_, ?_, ?_⟩
  · intro hmem huid
    have hfind : s.links.find? (fun l => l.userId == u) = some lk :=
      find?_eq_some_of_unique (atMostOne_unique_pred hinv u) hmem (by simp [huid])
    simp [publish, hfind]
  · cases hfind : s.links.find? (fun l => l.userId == u) with
    | some lk2 => simp [publish, hfind]
    | none =>
        have hfind2 : (s.links ++ [ShareLink.mk u h1]).find?
            (fun l => l.userId == u) = some ⟨u, h1⟩ := by
          rw [find?_append_of_none hfind]
          simp
        simp [publish, hfind, hfind2]
  · cases hfind : s.links.find? (fun l => l.userId == u) with
    | some lk2 =>
        have hmem2 := List.mem_of_find?_eq_some hfind
        have hp2 := List.find?_some hfind
        have hsingle : s.links.filter (fun l => l.userId == u) = [lk2] :=
          filter_eq_singleton_of_unique (atMostOne_unique_pred hinv u) hmem2 hp2
        simp [publish, hfind, linksFor, hsingle]
    | none =>
        have hfind2 : (s.links ++ [ShareLink.mk u h1]).find?
            (fun l => l.userId == u) = some ⟨u, h1⟩ := by
          rw [find?_append_of_none hfind]
          simp
        have hnil : s.links.filter (fun l => l.userId == u) = [] := by
          rw [List.filter_eq_nil_iff]
          exact List.find?_eq_none.mp hfind
        simp [publish, hfind, hfind2, linksFor, List.filter_append, hnil]

/-- Witness for C1 on a store where user 1 already holds a link. -/
theorem claim1_witness :
    AtMostOneLinkPerUser W1store ∧
    ((ShareLink.mk 1 "abc123defg" ∈ W1store.links →
        (ShareLink.mk 1 "abc123defg").userId = 1 →
        publish 1 "newtoken01" W1store
          = (ApiResult.okHash (ShareLink.mk 1 "abc123defg").hash, W1store)) ∧
     (publish 1 "newtoken01" W1store).1
       = (publish 1 "newtoken02" (publish 1 "newtoken01" W1store).2).1 ∧
     (linksFor 1 (publish 1 "newtoken02"
         (publish 1 "newtoken01" W1store).2).2).length = 1) :=
  ⟨by decide,
   claim1_publish_idempotent W1store 1 ⟨1, "abc123defg"⟩ "newtoken01"
     "newtoken02" (by decide)⟩

/-- Claim C2: resolving the token of user `u`'s active link returns `u`'s
username together with exactly the content rows owned by `u` (the filter
of the content collection on `u`'s id), and every returned row is owned by
`u` — never by another user, even one who also holds an active token. -/
theorem claim2_resolve_owner (s : Store) (u : User) (lk : ShareLink)
    (hhash : HashesDistinct s) (hids : UserIdsDistinct s)
    (hlmem : lk ∈ s.links) (humem : u ∈ s.users) (hown : lk.userId = u.id) :
    resolveShare lk.hash s
      = (ApiResult.okShared u.username
          (s.contents.filter (fun c => c.userId == u.id)), s) ∧
    (sharedContent (resolveShare lk.hash s).1).all
        (fun c => c.userId == u.id) = true := by
  have hfind : s.links.find? (fun l => l.hash == lk.hash) = some lk :=
    find?_eq_some_of_unique (hashes_unique_pred hhash lk.hash) hlmem (by simp)
  have hfu : s.users.find? (fun x => x.id == u.id) = some u :=
    find?_eq_some_of_unique (userIds_unique_pred hids u.id) humem (by simp)
  constructor
  · simp [resolveShare, hfind, hown, hfu]
  · simp only [resolveShare, hfind, hown, hfu, sharedContent]
    rw [List.all_eq_true]
    intro c hc
    exact (List.mem_filter.mp hc).2

/-- Witness for C2 on a store with two users, three content rows and two
active links: resolving alice's token returns alice's username and exactly
her two rows, none of bob's. -/
theorem claim2_witness :
    HashesDistinct W2store ∧ UserIdsDistinct W2store ∧
    (resolveShare (ShareLink.mk 1 "tokenalice").hash W2store
       = (ApiResult.okShared (User.mk 1 "alice" "pw1").username
           (W2store.contents.filter
             (fun c => c.userId == (User.mk 1 "alice" "pw1").id)), W2store) ∧
     (sharedContent (resolveShare (ShareLink.mk 1 "tokenalice").hash W2store).1).all
         (fun c => c.userId == (User.mk 1 "alice" "pw1").id) = true) :=
  ⟨by decide, by decide,
   claim2_resolve_owner W2store ⟨1, "alice", "pw1"⟩ ⟨1, "tokenalice"⟩
     (by decide) (by decide) (by decide) (by decide) (by decide)⟩

/-- Counterexample to C4 as stated: the token generator performs no
uniqueness check, so Publish(1) may draw the valid token "aaaaaaaaaa"
while user 2's link already carries the same hash; after Unpublish(1) the
token still resolves (to user 2's brain, status 200), not to NotFound. -/
theorem claim4_counterexample :
    IsValidToken "aaaaaaaaaa" ∧
    hashOf (publish 1 "aaaaaaaaaa" W4store).1 = "aaaaaaaaaa" ∧
    statusOf (resolveShare (hashOf (publish 1 "aaaaaaaaaa" W4store).1)
        (unpublish 1 (publish 1 "aaaaaaaaaa" W4store).2).2).1 = 200 ∧
    resolveShare (hashOf (publish 1 "aaaaaaaaaa" W4store).1)
        (unpublish 1 (publish 1 "aaaaaaaaaa" W4store).2).2
      ≠ (ApiResult.notFound "Share link not found",
         (unpublish 1 (publish 1 "aaaaaaaaaa" W4store).2).2) := by
  decide

/-- Claim C4 (amended): after Unpublish(u) following a Publish(u) that
returned token T, ResolveShare(T) fails with NotFound — provided each user
holds at most one link and no link of another user carries T (the token
freshness/uniqueness the generator is trusted to provide). -/
theorem claim4_unpublish_clears (s : Store) (u : Nat) (h : String)
    (hinv : AtMostOneLinkPerUser s)
    (hT : ∀ l ∈ s.links, l.hash = hashOf (publish u h s).1 → l.userId = u) :
    resolveShare (hashOf (publish u h s).1) (unpublish u (publish u h s).2).2
      = (ApiResult.notFound "Share link not found",
         (unpublish u (publish u h s).2).2) := by
  cases hfind : s.links.find? (fun l => l.userId == u) with
  | some lk =>
      simp only [publish, hfind, hashOf] at hT ⊢
      have hnone : (s.links.eraseP (fun l => l.userId == u)).find?
          (fun l => l.hash == lk.hash) = none := by
        rw [List.find?_eq_none]
        intro a ha hbeq
        have hpf : (a.userId == u) = false :=
          @pred_false_of_mem_eraseP ShareLink (fun l => l.userId == u)
            s.links a (atMostOne_unique_pred hinv u) ha
        have hmem : a ∈ s.links :=
          List.Sublist.subset (List.eraseP_sublist s.links) ha
        have hau : a.userId = u := hT a hmem (beq_iff_eq.mp hbeq)
        rw [hau] at hpf
        simp at hpf
      simp [unpublish, resolveShare, hnone]
  | none =>
      simp only [publish, hfind, hashOf] at hT ⊢
      have hall : ∀ b ∈ s.links, ¬((fun l => l.userId == u) b = true) :=
        fun b hb => List.find?_eq_none.mp hfind b hb
      have hone : ([ShareLink.mk u h].eraseP (fun l => l.userId == u)) = [] :=
        List.eraseP_cons_of_pos (by simp)
      have hlinks : ((s.links ++ [ShareLink.mk u h]).eraseP
          (fun l => l.userId == u)) = s.links := by
        rw [List.eraseP_append_right _ hall, hone, List.append_nil]
      have hnone : s.links.find? (fun l => l.hash == h) = none := by
        rw [List.find?_eq_none]
        intro a ha hbeq
        have hau : a.userId = u := hT a ha (beq_iff_eq.mp hbeq)
        exact hall a ha (by simp [hau])
      simp [unpublish, hlinks, resolveShare, hnone]

/-- Witness for the amended C4: user 1 publishes (receiving the already
stored token), unpublishes, and the token no longer resolves. -/
theorem claim4_witness :
    AtMostOneLinkPerUser W4pub ∧
    (∀ l ∈ W4pub.links,
        l.hash = hashOf (publish 1 "abc123defg" W4pub).1 → l.userId = 1) ∧
    resolveShare (hashOf (publish 1 "abc123defg" W4pub).1)
        (unpublish 1 (publish 1 "abc123defg" W4pub).2).2
      = (ApiResult.notFound "Share link not found",
         (unpublish 1 (publish 1 "abc123defg" W4pub).2).2) :=
  ⟨by decide, by decide,
   claim4_unpublish_clears W4pub 1 "abc123defg" (by decide) (by decide)⟩

/-- Counterexample to C6 as stated: starting from the empty store, two
Publish calls for distinct users 1 and 2 can both draw the valid token
"aaaaaaaaaa" (the generator performs no uniqueness check), reaching a
state with two links of distinct users carrying equal tokens. -/
theorem claim6_counterexample :
    IsValidToken "aaaaaaaaaa" ∧
    (runOps emptyStore
        [ShareOp.pub 1 "aaaaaaaaaa", ShareOp.pub 2 "aaaaaaaaaa"]).links
      = [⟨1, "aaaaaaaaaa"⟩, ⟨2, "aaaaaaaaaa"⟩] ∧
    ¬ TokensUnique (runOps emptyStore
        [ShareOp.pub 1 "aaaaaaaaaa", ShareOp.pub 2 "aaaaaaaaaa"]) := by
  decide

/-- Claim C6 (amended): starting from a state whose tokens are unique
across users, every sequence of Publish and Unpublish operations in which
each generated token is fresh (differs from every stored hash at the time
it is drawn) preserves token uniqueness across users. -/
theorem claim6_tokensUnique_fresh (s : Store) (ops : List ShareOp)
    (htu : TokensUnique s) (hfresh : FreshRun s ops) :
    TokensUnique (runOps s ops) := by
  induction ops generalizing s with
  | nil => exact htu
  | cons op ops ih =>
      cases op with
      | pub u h =>
          simp only [FreshRun, freshRunB, Bool.and_eq_true] at hfresh
          rcases hfresh with ⟨hall, hrest⟩
          have hfr : ∀ l ∈ s.links, l.hash ≠ h := by
            intro l hl
            have hb := List.all_eq_true.mp hall l hl
            simpa using hb
          exact ih _ (publish_tokensUnique htu hfr) hrest
      | unpub u =>
          simp only [FreshRun, freshRunB] at hfresh
          exact ih _ (unpublish_tokensUnique htu) hfresh

/-- Witness for the amended C6 on a concrete fresh run. -/
theorem claim6_witness :
    TokensUnique W6store ∧
    FreshRun W6store
      [ShareOp.pub 2 "bbbbbbbbbb", ShareOp.unpub 1, ShareOp.pub 3 "cccccccccc"] ∧
    TokensUnique (runOps W6store
      [ShareOp.pub 2 "bbbbbbbbbb", ShareOp.unpub 1, ShareOp.pub 3 "cccccccccc"]) :=
  ⟨by decide, by decide,
   claim6_tokensUnique_fresh W6store
     [ShareOp.pub 2 "bbbbbbbbbb", ShareOp.unpub 1, ShareOp.pub 3 "cccccccccc"]
     (by decide) (by decide)⟩
